import Mathlib

/-!
Verification of the pretty-printing engine in `src/data.rs` (a Rust port of
Wadler's prettier printer).  The definitions below are a shallow embedding of
the Rust source: Rust `i64` becomes `Int`, Rust `String` becomes Lean
`String` with its UTF-8 byte length modelled explicitly (`rustLen`), and the
`i as usize` cast in `copy` is modelled as reduction modulo `2 ^ 64`.
-/

/-- UTF-8 byte size of a single character, as stored by a Rust `String`. -/
def charBytes (c : Char) : Nat :=
  if c.toNat ≤ 0x7F then 1
  else if c.toNat ≤ 0x7FF then 2
  else if c.toNat ≤ 0xFFFF then 3
  else 4

/-- UTF-8 byte size of a list of characters. -/
def utf8Len : List Char → Nat
  | [] => 0
  | c :: cs => charBytes c + utf8Len cs

/-- Rust `String::len`: the UTF-8 byte length of the string. -/
def rustLen (s : String) : Nat := utf8Len s.data

/-- `DocCore`: the unresolved document algebra (enum `DocCore` in the source). -/
inductive DocCore where
  | Nil : DocCore
  | Append : DocCore → DocCore → DocCore
  | Nest : Int → DocCore → DocCore
  | Text : String → DocCore
  | Line : DocCore
  | Union : DocCore → DocCore → DocCore
deriving DecidableEq, Repr

/-- `Doc`: the resolved, choice-free layout (enum `Doc` in the source). -/
inductive Doc where
  | Nil : Doc
  | Text : String → Doc → Doc
  | Line : Int → Doc → Doc
deriving DecidableEq, Repr

/-- Constructor `nil()`. -/
def nil : DocCore := DocCore.Nil

/-- Constructor `append(x, y)`. -/
def append (x y : DocCore) : DocCore := DocCore.Append x y

/-- Constructor `nest(i, x)`. -/
def nest (i : Int) (x : DocCore) : DocCore := DocCore.Nest i x

/-- Constructor `text(s)`. -/
def text (s : String) : DocCore := DocCore.Text s

/-- Constructor `line()`. -/
def line : DocCore := DocCore.Line

/-- `flatten`: collapse a document into its single-line-only form. -/
def flatten : DocCore → DocCore
  | DocCore.Nil => DocCore.Nil
  | DocCore.Append x y => DocCore.Append (flatten x) (flatten y)
  | DocCore.Nest i x => DocCore.Nest i (flatten x)
  | DocCore.Text s => DocCore.Text s
  | DocCore.Line => DocCore.Text " "
  | DocCore.Union x _y => flatten x

/-- `group(x) = Union(flatten(x), x)`. -/
def group (x : DocCore) : DocCore := DocCore.Union (flatten x) x

/-- The number of copies `copy(i, x)` makes: Rust's `i as usize` cast of an
`i64`, i.e. reduction modulo `2 ^ 64` (negative `i` wraps to `2 ^ 64 + i`). -/
def copyCount (i : Int) : Nat := (i % (2 ^ 64)).toNat

/-- `n` concatenated copies of `x`; models
`std::iter::repeat(x).take(n).collect::<Vec<_>>().join("")`. -/
def repeatStr : Nat → String → String
  | 0, _ => ""
  | n + 1, x => x ++ repeatStr n x

/-- `copy(i, x)`: `i as usize` copies of `x`, concatenated. -/
def copy (i : Int) (x : String) : String := repeatStr (copyCount i) x

/-- `layout`: render a resolved `Doc` to a string. -/
def layout : Doc → String
  | Doc.Nil => ""
  | Doc.Text s x => s ++ layout x
  | Doc.Line i x => "\n" ++ copy i " " ++ layout x

/-- `fits(w, x)`: the one-line lookahead check of the resolution engine.  The
source checks `w < 0` first, before matching on `x`. -/
def fits (w : Int) (x : Doc) : Bool :=
  if w < 0 then false
  else
    match x with
    | Doc.Nil => true
    | Doc.Text s rest => fits (w - (rustLen s : Int)) rest
    | Doc.Line _i _x => true

/-- `better(w, k, x, y)`: pick `x` if it fits in the remaining width, else `y`. -/
def better (w k : Int) (x y : Doc) : Doc :=
  if fits (w - k) x then x else y

/-- Structural size of a `DocCore`, used only as the termination measure of
`be` (the Rust recursion is over a shrinking worklist). -/
def DocCore.size : DocCore → Nat
  | DocCore.Nil => 1
  | DocCore.Append x y => 1 + x.size + y.size
  | DocCore.Nest _ x => 1 + x.size
  | DocCore.Text _ => 1
  | DocCore.Line => 1
  | DocCore.Union x y => 1 + x.size + y.size

/-- Total size of a worklist, the termination measure of `be`. -/
def beMeasure : List (Int × DocCore) → Nat
  | [] => 0
  | (_, d) :: z => d.size + beMeasure z

/-- `be(w, k, xs)`: the resolution engine's worklist recursion. -/
def be (w k : Int) : List (Int × DocCore) → Doc
  | [] => Doc.Nil
  | (_i, DocCore.Nil) :: z => be w k z
  | (i, DocCore.Append x y) :: z => be w k ((i, x) :: (i, y) :: z)
  | (i, DocCore.Nest j x) :: z => be w k ((i + j, x) :: z)
  | (_i, DocCore.Text s) :: z => Doc.Text s (be w (k + (rustLen s : Int)) z)
  | (i, DocCore.Line) :: z => Doc.Line i (be w i z)
  | (i, DocCore.Union x y) :: z =>
      better w k (be w k ((i, x) :: z)) (be w k ((i, y) :: z))
termination_by xs => beMeasure xs
decreasing_by
  all_goals simp [beMeasure, DocCore.size]
  all_goals omega

/-- `best(w, k, x) = be(w, k, [(0, x)])`. -/
def best (w k : Int) (x : DocCore) : Doc := be w k [(0, x)]

/-- `pretty(w, x) = layout(best(w, 0, x))`. -/
def pretty (w : Int) (x : DocCore) : String := layout (best w 0 x)

/-- `space(x, y) = x <> text(" ") <> y`. -/
def space (x y : DocCore) : DocCore := append x (append (text " ") y)

/-- `newline(x, y) = x <> line() <> y`. -/
def newline (x y : DocCore) : DocCore := append x (append line y)

/-- `fold_doc(f, xs)`: right fold of a binary joiner over a list of documents. -/
def fold_doc (f : DocCore → DocCore → DocCore) : List DocCore → DocCore
  | [] => nil
  | [x] => x
  | x :: y :: xs => f x (fold_doc f (y :: xs))

/-- `spread = fold_doc(space)`. -/
def spread (xs : List DocCore) : DocCore := fold_doc space xs

/-- `stack = fold_doc(newline)`. -/
def stack (xs : List DocCore) : DocCore := fold_doc newline xs

/-- `bracket(l, x, r)`. -/
def bracket (l : String) (x : DocCore) (r : String) : DocCore :=
  group (append (text l)
    (append (nest 2 (append line x)) (append line (text r))))

/-- `space_newline(x, y) = x <> (text(" ") <> line()) <> y` — note the source
concatenates the space and the line; there is no `Union` here. -/
def space_newline (x y : DocCore) : DocCore :=
  append x (append (append (text " ") line) y)

/-- Rust `s.split(" ")` over the character list: splits at every single
space, keeping empty tokens. -/
def splitSpaces : List Char → List (List Char)
  | [] => [[]]
  | c :: rest =>
      let r := splitSpaces rest
      if c = ' ' then [] :: r
      else
        match r with
        | [] => [[c]]
        | w :: ws => (c :: w) :: ws

/-- Rust `s.split(" ")` on strings. -/
def rustSplitSpace (s : String) : List String :=
  (splitSpaces s.data).map (fun cs => String.mk cs)

/-- `fill_words(s)`: fold `space_newline` over the space-separated tokens. -/
def fill_words (s : String) : DocCore :=
  fold_doc space_newline ((rustSplitSpace s).map (fun x => text x))

/-- `fill(xs)`: the pairwise fill combinator, exactly as in the source (the
two continuations are combined with `append`). -/
def fill : List DocCore → DocCore
  | [] => nil
  | [x] => x
  | x :: y :: zs =>
      append (space (flatten x) (fill (flatten y :: zs)))
             (newline x (fill (y :: zs)))
termination_by xs => xs.length
decreasing_by
  all_goals simp

/-- The strings of the `Text` fragments of a resolved `Doc`, in order. -/
def Doc.fragments : Doc → List String
  | Doc.Nil => []
  | Doc.Text s x => s :: x.fragments
  | Doc.Line _ x => x.fragments

/-- All `Text` strings occurring anywhere in a `DocCore`. -/
def DocCore.texts : DocCore → List String
  | DocCore.Nil => []
  | DocCore.Append x y => x.texts ++ y.texts
  | DocCore.Nest _ x => x.texts
  | DocCore.Text s => [s]
  | DocCore.Line => []
  | DocCore.Union x y => x.texts ++ y.texts

/-- The lines of the rendered output of a resolved `Doc` (the rendered string
is these lines joined by newline characters). -/
def docLines : Doc → List String
  | Doc.Nil => [""]
  | Doc.Text s x =>
      match docLines x with
      | [] => [s]
      | l :: ls => (s ++ l) :: ls
  | Doc.Line i x =>
      match docLines x with
      | [] => ["", copy i " "]
      | l :: ls => "" :: (copy i " " ++ l) :: ls

/-- Join a list of lines with newline characters. -/
def joinNL : List String → String
  | [] => ""
  | [l] => l
  | l :: l2 :: ls => l ++ "\n" ++ joinNL (l2 :: ls)

/-- Concatenation of a list of strings. -/
def sjoin : List String → String
  | [] => ""
  | s :: ss => s ++ sjoin ss

/-- Number of newline characters in a string. -/
def countNL (s : String) : Nat := s.data.countP (fun c => c = '\n')

/-- No `Union` occurs anywhere in the document. -/
def DocCore.unionFree : DocCore → Bool
  | DocCore.Nil => true
  | DocCore.Append x y => x.unionFree && y.unionFree
  | DocCore.Nest _ x => x.unionFree
  | DocCore.Text _ => true
  | DocCore.Line => true
  | DocCore.Union _ _ => false

/-- Every document of the worklist is union-free. -/
def allUnionFree : List (Int × DocCore) → Bool
  | [] => true
  | (_, d) :: z => d.unionFree && allUnionFree z

/-- Newline characters a union-free document renders to (its `Line`s are all
hard breaks). -/
def DocCore.nlCount : DocCore → Nat
  | DocCore.Nil => 0
  | DocCore.Append x y => x.nlCount + y.nlCount
  | DocCore.Nest _ x => x.nlCount
  | DocCore.Text s => countNL s
  | DocCore.Line => 1
  | DocCore.Union _ _ => 0

/-- Total newline count of a union-free worklist. -/
def nlSum : List (Int × DocCore) → Nat
  | [] => 0
  | (_, d) :: z => d.nlCount + nlSum z

/-- The bracket document of concrete scenarios 4 and 5 of the specification. -/
def bracketDoc : DocCore :=
  bracket "[" (append (text "x") (append (text ",") (append line (text "y")))) "]"

/-- Two adjacent text fragments with no break opportunity between them. -/
def twoTexts : DocCore := append (text "aa") (text "bb")

/-- A group whose flattening is "aaaa b". -/
def G1 : DocCore := group (append (text "aaaa") (append line (text "b")))

/-- A group whose flattening is "cc d e", with two hard breaks when broken. -/
def G2 : DocCore :=
  group (append (text "cc") (append line (append (text "d") (append line (text "e")))))

/-- A document built only from group-wrapped sub-documents on which widening
the page from 7 to 8 columns increases the number of line breaks. -/
def dC9 : DocCore := group (append G1 G2)

/-! ## Theorems -/

/-- Flattening is idempotent. -/
theorem flatten_flatten (x : DocCore) : flatten (flatten x) = flatten x := by
  induction x with
  | Nil => rfl
  | Append a b iha ihb => simp [flatten, iha, ihb]
  | Nest i a ih => simp [flatten, ih]
  | Text s => rfl
  | Line => rfl
  | Union a b iha ihb => simp [flatten, iha]

/-- C8: for every document x, flatten(group(x)) equals flatten(x). -/
theorem C8_flatten_group (x : DocCore) : flatten (group x) = flatten x := by
  simp [group, flatten, flatten_flatten]

/-- C3 counterexample: at width 80 the bracket document of scenario 4 does
not render as "[x, y]" — the flattened line() around the body contributes
spaces after "[" and before "]". -/
theorem C3_counterexample : pretty 80 bracketDoc ≠ "[x, y]" := by
  simp only [pretty, best, bracketDoc, bracket, group, flatten, append, text, line, nest, nil, be]
  decide

/-- C3 amended: at width 80 the bracket document of scenario 4 renders as the
single line "[ x, y ]". -/
theorem C3_bracket_wide : pretty 80 bracketDoc = "[ x, y ]" := by
  simp only [pretty, best, bracketDoc, bracket, group, flatten, append, text, line, nest, nil, be]
  decide

/-- C4 counterexample: at width 3 the bracket document of scenario 5 does not
render as "[\n  x,y\n]" — the inner line() is a hard break once the outer
group's flattening was rejected, so "x," and "y" land on separate lines. -/
theorem C4_counterexample : pretty 3 bracketDoc ≠ "[\n  x,y\n]" := by
  simp only [pretty, best, bracketDoc, bracket, group, flatten, append, text, line, nest, nil, be]
  decide

/-- C4 amended: at width 3 the bracket document of scenario 5 renders as
"[\n  x,\n  y\n]". -/
theorem C4_bracket_narrow : pretty 3 bracketDoc = "[\n  x,\n  y\n]" := by
  simp only [pretty, best, bracketDoc, bracket, group, flatten, append, text, line, nest, nil, be]
  decide

/-- C1: fill combines the flattened continuation and the broken continuation
with append, not with a Union, so pretty renders the text of both, one after
the other: at width 10, fill [text "ab", text "c"] renders as "ab cab\nc",
which is neither the flattened layout "ab c" nor the broken layout "ab\nc". -/
theorem C1_fill_concatenates_both :
    pretty 10 (fill [text "ab", text "c"]) = "ab cab\nc" ∧
    pretty 10 (fill [text "ab", text "c"]) ≠ "ab c" ∧
    pretty 10 (fill [text "ab", text "c"]) ≠ "ab\nc" := by
  refine ⟨?_, ?_, ?_⟩ <;>
    simp only [pretty, best, fill, flatten, space, newline, append, text, line, nil, be] <;>
    decide

/-- C2: space_newline concatenates the space and the line break instead of
choosing between them, so fill_words always emits a space immediately
followed by a newline between adjacent words: fill_words "a b" at width 80
renders as "a \nb", not as "a b" or "a\nb". -/
theorem C2_fill_words_space_then_break :
    pretty 80 (fill_words "a b") = "a \nb" ∧
    pretty 80 (fill_words "a b") ≠ "a b" ∧
    pretty 80 (fill_words "a b") ≠ "a\nb" := by
  refine ⟨?_, ?_, ?_⟩ <;>
    simp only [pretty, best, fill_words, rustSplitSpace, splitSpaces, fold_doc, space_newline,
      append, text, line, nil, List.map, be] <;>
    decide

/-- C7 counterexample: the source checks w < 0 before matching, so
fits(-1, Nil) is false, contradicting the claim's unconditional
"fits(r, Nil) is true"; likewise fits(-1, Line(0, Nil)) is false although the
claim says Line fits "unconditionally". -/
theorem C7_counterexample :
    fits (-1) Doc.Nil = false ∧ fits (-1) (Doc.Line 0 Doc.Nil) = false := by
  decide

/-- C7 amended: for nonnegative r, fits(r, Nil) is true, fits(r, Text(s,rest))
equals fits(r - len(s), rest), and fits(r, Line(_,_)) is true; for every
negative r and every d, fits(r, d) is false; fits is total. -/
theorem C7_fits_spec (r : Int) (s : String) (x : Doc) (i : Int) (d : Doc) :
    (0 ≤ r → fits r Doc.Nil = true ∧
      fits r (Doc.Text s x) = fits (r - (rustLen s : Int)) x ∧
      fits r (Doc.Line i x) = true) ∧
    (r < 0 → fits r d = false) := by
  constructor
  · intro h
    refine ⟨?_, ?_, ?_⟩ <;> rw [fits] <;> rw [if_neg (by omega)]
  · intro h
    cases d <;> rw [fits] <;> rw [if_pos h]

/-- Witness for C7_fits_spec at r = 2 and r = -1. -/
theorem C7_fits_spec_witness :
    (fits 2 Doc.Nil = true ∧
      fits 2 (Doc.Text "ab" Doc.Nil) = fits (2 - (rustLen "ab" : Int)) Doc.Nil ∧
      fits 2 (Doc.Line 0 Doc.Nil) = true) ∧
    fits (-1) (Doc.Text "ab" Doc.Nil) = false :=
  ⟨(C7_fits_spec 2 "ab" Doc.Nil 0 Doc.Nil).1 (by decide),
   (C7_fits_spec (-1) "ab" Doc.Nil 0 (Doc.Text "ab" Doc.Nil)).2 (by decide)⟩

/-- C6 counterexample: Rust String::len is the UTF-8 byte length, not the
character count: "é" is one character but fits deducts two from the budget,
so a width-1 budget rejects the one-character text "é". -/
theorem C6_counterexample :
    fits 1 (Doc.Text "é" Doc.Nil) = false ∧
    ("é" : String).length = 1 ∧ rustLen "é" = 2 := by
  decide

/-- C6 amended: the resolution engine advances the column by the UTF-8 byte
length of s (Rust String::len), and fits deducts that byte length from the
remaining width; this equals the character count only for ASCII text. -/
theorem C6_width_in_bytes (w k : Int) (s : String) (z : List (Int × DocCore))
    (i : Int) (r : Doc) :
    be w k ((i, DocCore.Text s) :: z) = Doc.Text s (be w (k + (rustLen s : Int)) z) ∧
    (0 ≤ w → fits w (Doc.Text s r) = fits (w - (rustLen s : Int)) r) := by
  constructor
  · rw [be]
  · intro h
    rw [fits, if_neg (by omega)]

/-- Witness for C6_width_in_bytes at concrete inputs. -/
theorem C6_width_in_bytes_witness :
    be 5 0 [(0, DocCore.Text "é")] = Doc.Text "é" (be 5 (0 + (rustLen "é" : Int)) []) ∧
    fits 5 (Doc.Text "é" Doc.Nil) = fits (5 - (rustLen "é" : Int)) Doc.Nil :=
  ⟨(C6_width_in_bytes 5 0 "é" [] 0 Doc.Nil).1,
   (C6_width_in_bytes 5 0 "é" [] 0 Doc.Nil).2 (by decide)⟩

/-- Length of n concatenated copies of a string. -/
theorem repeatStr_length (n : Nat) (x : String) :
    (repeatStr n x).length = n * x.length := by
  induction n with
  | zero => simp [repeatStr]
  | succ m ih => simp [repeatStr, ih]; ring

/-- C10: copy makes i copies only for nonnegative i; a negative i64 count
wraps through the `as usize` cast to 2^64 + i, and a negative Line indent —
reachable from the public API via pretty on a nest with a negative amount —
makes layout attempt to emit 2^64 + i spaces. -/
theorem C10_copy_wraps :
    (∀ i : Int, 0 ≤ i → i < 2 ^ 63 → copyCount i = i.toNat) ∧
    (∀ i : Int, -2 ^ 63 ≤ i → i < 0 → (copyCount i : Int) = 2 ^ 64 + i) ∧
    best 10 0 (nest (-3) line) = Doc.Line (-3) Doc.Nil ∧
    layout (Doc.Line (-3) Doc.Nil) = "\n" ++ copy (-3) " " ++ "" ∧
    (copy (-3) " ").length = 2 ^ 64 - 3 := by
  refine ⟨?_, ?_, ?_, ?_, ?_⟩
  · intro i h1 h2
    simp only [copyCount]
    omega
  · intro i h1 h2
    simp only [copyCount]
    omega
  · simp only [best, nest, line, be]
    decide
  · rfl
  · rw [copy, repeatStr_length]
    have h : copyCount (-3) = 2 ^ 64 - 3 := by simp only [copyCount]; decide
    rw [h]
    decide

/-- Witness for C10_copy_wraps at i = 7 and i = -3. -/
theorem C10_copy_wraps_witness :
    copyCount 7 = (7 : Int).toNat ∧ (copyCount (-3) : Int) = 2 ^ 64 + (-3) :=
  ⟨C10_copy_wraps.1 7 (by decide) (by decide),
   C10_copy_wraps.2.1 (-3) (by decide) (by decide)⟩

/-- Newlines in a concatenation add up. -/
theorem countNL_append (a b : String) : countNL (a ++ b) = countNL a + countNL b := by
  simp [countNL, String.data_append, List.countP_append]

/-- Repeated spaces contain no newline. -/
theorem countNL_repeatStr_space (n : Nat) : countNL (repeatStr n " ") = 0 := by
  induction n with
  | zero => rfl
  | succ m ih => rw [repeatStr, countNL_append, ih]; rfl

/-- Indentation contains no newline. -/
theorem countNL_copy_space (i : Int) : countNL (copy i " ") = 0 :=
  countNL_repeatStr_space _

/-- fits is monotone in the width budget. -/
theorem fits_mono (d : Doc) : ∀ w1 w2 : Int, w1 ≤ w2 →
    fits w1 d = true → fits w2 d = true := by
  induction d with
  | Nil =>
    intro w1 w2 h hf
    by_cases h1 : w1 < 0
    · rw [fits, if_pos h1] at hf; exact absurd hf (by simp)
    · rw [fits, if_neg (by omega : ¬ w2 < 0)]
  | Text s rest ih =>
    intro w1 w2 h hf
    by_cases h1 : w1 < 0
    · rw [fits, if_pos h1] at hf; exact absurd hf (by simp)
    · rw [fits, if_neg h1] at hf
      rw [fits, if_neg (by omega : ¬ w2 < 0)]
      exact ih _ _ (by omega) hf
  | Line i rest ih =>
    intro w1 w2 h hf
    by_cases h1 : w1 < 0
    · rw [fits, if_pos h1] at hf; exact absurd hf (by simp)
    · rw [fits, if_neg (by omega : ¬ w2 < 0)]

/-- Flattening removes every Union. -/
theorem flatten_unionFree (x : DocCore) : (flatten x).unionFree = true := by
  induction x with
  | Nil => rfl
  | Append a b iha ihb => simp [flatten, DocCore.unionFree, iha, ihb]
  | Nest i a ih => simp [flatten, DocCore.unionFree, ih]
  | Text s => rfl
  | Line => rfl
  | Union a b iha ihb => simpa [flatten] using iha

/-- Flattening a union-free document does not increase its newline count. -/
theorem nlCount_flatten_le (x : DocCore) (h : x.unionFree = true) :
    (flatten x).nlCount ≤ x.nlCount := by
  induction x with
  | Nil => simp [flatten]
  | Append a b iha ihb =>
    simp only [DocCore.unionFree, Bool.and_eq_true] at h
    simp only [flatten, DocCore.nlCount]
    exact Nat.add_le_add (iha h.1) (ihb h.2)
  | Nest i a ih =>
    simp only [DocCore.unionFree] at h
    simpa [flatten, DocCore.nlCount] using ih h
  | Text s => simp [flatten]
  | Line => simp [flatten, DocCore.nlCount, countNL]
  | Union a b iha ihb => simp [DocCore.unionFree] at h

/-- For a union-free worklist, the resolution engine's output (and hence its
newline structure) does not depend on the width or the column. -/
theorem be_indep (w k : Int) (xs : List (Int × DocCore)) :
    ∀ w' k' : Int, allUnionFree xs = true → be w k xs = be w' k' xs := by
  induction k, xs using be.induct w with
  | case1 k => intro w' k' _; rw [be, be]
  | case2 k i z ih =>
    intro w' k' h
    simp only [allUnionFree, DocCore.unionFree, Bool.true_and] at h
    rw [be, be]
    exact ih w' k' h
  | case3 k i x y z ih =>
    intro w' k' h
    simp only [allUnionFree, DocCore.unionFree, Bool.and_eq_true] at h
    rw [be, be]
    exact ih w' k' (by simp [allUnionFree, h.1.1, h.1.2, h.2])
  | case4 k i j x z ih =>
    intro w' k' h
    simp only [allUnionFree, DocCore.unionFree, Bool.and_eq_true] at h
    rw [be, be]
    exact ih w' k' (by simp [allUnionFree, h.1, h.2])
  | case5 k i s z ih =>
    intro w' k' h
    simp only [allUnionFree, DocCore.unionFree, Bool.true_and] at h
    rw [be, be]
    rw [ih w' (k' + (rustLen s : Int)) h]
  | case6 k i z ih =>
    intro w' k' h
    simp only [allUnionFree, DocCore.unionFree, Bool.true_and] at h
    rw [be, be]
    rw [ih w' i h]
  | case7 k i x y z ih1 ih2 =>
    intro w' k' h
    simp [allUnionFree, DocCore.unionFree] at h

/-- For a union-free worklist, the rendered newline count is the sum of the
hard line breaks and the newlines inside the text fragments. -/
theorem be_countNL (w k : Int) (xs : List (Int × DocCore)) :
    allUnionFree xs = true → countNL (layout (be w k xs)) = nlSum xs := by
  induction k, xs using be.induct w with
  | case1 k => intro _; rw [be]; rfl
  | case2 k i z ih =>
    intro h
    simp only [allUnionFree, DocCore.unionFree, Bool.true_and] at h
    rw [be, ih h]
    simp [nlSum, DocCore.nlCount]
  | case3 k i x y z ih =>
    intro h
    simp only [allUnionFree, DocCore.unionFree, Bool.and_eq_true] at h
    rw [be, ih (by simp [allUnionFree, h.1.1, h.1.2, h.2])]
    simp [nlSum, DocCore.nlCount]
    omega
  | case4 k i j x z ih =>
    intro h
    simp only [allUnionFree, DocCore.unionFree, Bool.and_eq_true] at h
    rw [be, ih (by simp [allUnionFree, h.1, h.2])]
    simp [nlSum, DocCore.nlCount]
  | case5 k i s z ih =>
    intro h
    simp only [allUnionFree, DocCore.unionFree, Bool.true_and] at h
    rw [be]
    simp only [layout, countNL_append, ih h, nlSum, DocCore.nlCount]
  | case6 k i z ih =>
    intro h
    simp only [allUnionFree, DocCore.unionFree, Bool.true_and] at h
    rw [be]
    simp only [layout, countNL_append, countNL_copy_space, ih h, nlSum, DocCore.nlCount]
    have : countNL "\n" = 1 := by decide
    omega
  | case7 k i x y z ih1 ih2 =>
    intro h
    simp [allUnionFree, DocCore.unionFree] at h

/-- docLines never returns an empty list. -/
theorem docLines_ne_nil (d : Doc) : docLines d ≠ [] := by
  cases d with
  | Nil => simp [docLines]
  | Text s x => rw [docLines]; split <;> simp
  | Line i x => rw [docLines]; split <;> simp

/-- The rendered string is the lines joined by newline characters. -/
theorem layout_eq_joinNL (d : Doc) : layout d = joinNL (docLines d) := by
  induction d with
  | Nil => rfl
  | Text s x ih =>
    cases hx : docLines x with
    | nil => exact absurd hx (docLines_ne_nil x)
    | cons l ls =>
      rw [layout, ih, hx, docLines, hx]
      cases ls with
      | nil => rw [joinNL, joinNL]
      | cons l2 ls2 => simp [joinNL, String.append_assoc]
  | Line i x ih =>
    cases hx : docLines x with
    | nil => exact absurd hx (docLines_ne_nil x)
    | cons l ls =>
      rw [layout, ih, hx, docLines, hx]
      cases ls with
      | nil => simp [joinNL, String.append_assoc]
      | cons l2 ls2 => simp [joinNL, String.append_assoc]

/-- Structure of the rendered lines of a resolved document: the first line is
a concatenation of whole text fragments, and every later line is indentation
spaces followed by a concatenation of whole text fragments. -/
theorem docLines_shape (d : Doc) :
    (∃ ss, (docLines d).head? = some (sjoin ss) ∧ ∀ s ∈ ss, s ∈ d.fragments) ∧
    (∀ l ∈ (docLines d).tail, ∃ (i : Int) (ss : List String),
      l = copy i " " ++ sjoin ss ∧ ∀ s ∈ ss, s ∈ d.fragments) := by
  induction d with
  | Nil =>
    refine ⟨⟨[], by rw [docLines]; rfl, by simp⟩, ?_⟩
    rw [docLines]
    simp
  | Text s x ih =>
    obtain ⟨⟨ss0, hhead, hss0⟩, htail⟩ := ih
    cases hx : docLines x with
    | nil => exact absurd hx (docLines_ne_nil x)
    | cons l ls =>
      rw [hx] at hhead htail
      simp only [List.head?] at hhead
      injection hhead with hl
      constructor
      · refine ⟨s :: ss0, ?_, ?_⟩
        · rw [docLines, hx]
          simp only [List.head?, sjoin, hl]
        · intro t ht
          rcases List.mem_cons.mp ht with h1 | h2
          · subst h1; exact List.mem_cons_self _ _
          · exact List.mem_cons_of_mem _ (hss0 t h2)
      · intro l2 hl2
        rw [docLines, hx] at hl2
        simp only [List.tail] at hl2
        obtain ⟨i, ss, hshape, hmem⟩ := htail l2 (by simpa using hl2)
        exact ⟨i, ss, hshape, fun t ht => List.mem_cons_of_mem _ (hmem t ht)⟩
  | Line j x ih =>
    obtain ⟨⟨ss0, hhead, hss0⟩, htail⟩ := ih
    cases hx : docLines x with
    | nil => exact absurd hx (docLines_ne_nil x)
    | cons l ls =>
      rw [hx] at hhead htail
      simp only [List.head?] at hhead
      injection hhead with hl
      constructor
      · exact ⟨[], by rw [docLines, hx]; rfl, by simp⟩
      · intro l2 hl2
        rw [docLines, hx] at hl2
        simp only [List.tail] at hl2
        rcases List.mem_cons.mp hl2 with h1 | h2
        · refine ⟨j, ss0, ?_, fun t ht => hss0 t ht⟩
          rw [h1, hl]
        · obtain ⟨i, ss, hshape, hmem⟩ := htail l2 (by simpa using h2)
          exact ⟨i, ss, hshape, hmem⟩

/-- Every text fragment of the resolved layout is a text of some document of
the worklist: the resolution engine never creates or splits text. -/
theorem be_fragments (w k : Int) (xs : List (Int × DocCore)) :
    ∀ s ∈ (be w k xs).fragments, ∃ p ∈ xs, s ∈ DocCore.texts p.2 := by
  induction k, xs using be.induct w with
  | case1 k => rw [be]; simp [Doc.fragments]
  | case2 k i z ih =>
    intro s hs
    rw [be] at hs
    obtain ⟨p, hp, hsp⟩ := ih s hs
    exact ⟨p, List.mem_cons_of_mem _ hp, hsp⟩
  | case3 k i x y z ih =>
    intro s hs
    rw [be] at hs
    obtain ⟨p, hp, hsp⟩ := ih s hs
    rcases List.mem_cons.mp hp with h1 | hp2
    · subst h1
      exact ⟨(i, DocCore.Append x y), List.mem_cons_self _ _,
        by simp only [DocCore.texts, List.mem_append]; exact Or.inl hsp⟩
    rcases List.mem_cons.mp hp2 with h2 | hp3
    · subst h2
      exact ⟨(i, DocCore.Append x y), List.mem_cons_self _ _,
        by simp only [DocCore.texts, List.mem_append]; exact Or.inr hsp⟩
    · exact ⟨p, List.mem_cons_of_mem _ hp3, hsp⟩
  | case4 k i j x z ih =>
    intro s hs
    rw [be] at hs
    obtain ⟨p, hp, hsp⟩ := ih s hs
    rcases List.mem_cons.mp hp with h1 | hp2
    · subst h1
      exact ⟨(i, DocCore.Nest j x), List.mem_cons_self _ _, hsp⟩
    · exact ⟨p, List.mem_cons_of_mem _ hp2, hsp⟩
  | case5 k i s0 z ih =>
    intro t ht
    rw [be] at ht
    rw [Doc.fragments] at ht
    rcases List.mem_cons.mp ht with h1 | h2
    · exact ⟨(i, DocCore.Text s0), List.mem_cons_self _ _, by simp [DocCore.texts, h1]⟩
    · obtain ⟨p, hp, hsp⟩ := ih t h2
      exact ⟨p, List.mem_cons_of_mem _ hp, hsp⟩
  | case6 k i z ih =>
    intro s hs
    rw [be] at hs
    rw [Doc.fragments] at hs
    obtain ⟨p, hp, hsp⟩ := ih s hs
    exact ⟨p, List.mem_cons_of_mem _ hp, hsp⟩
  | case7 k i x y z ih1 ih2 =>
    intro s hs
    rw [be] at hs
    unfold better at hs
    split at hs
    · obtain ⟨p, hp, hsp⟩ := ih1 s hs
      rcases List.mem_cons.mp hp with h1 | hp2
      · subst h1
        exact ⟨(i, DocCore.Union x y), List.mem_cons_self _ _,
          by simp only [DocCore.texts, List.mem_append]; exact Or.inl hsp⟩
      · exact ⟨p, List.mem_cons_of_mem _ hp2, hsp⟩
    · obtain ⟨p, hp, hsp⟩ := ih2 s hs
      rcases List.mem_cons.mp hp with h1 | hp2
      · subst h1
        exact ⟨(i, DocCore.Union x y), List.mem_cons_self _ _,
          by simp only [DocCore.texts, List.mem_append]; exact Or.inr hsp⟩
      · exact ⟨p, List.mem_cons_of_mem _ hp2, hsp⟩

/-- C5 counterexample: at width 3 the document text("aa") <> text("bb")
renders as the single line "aabb" of length 4 > 3, and that line is not a
single Text fragment of the document (its fragments are "aa" and "bb", each
of length 2). -/
theorem C5_counterexample :
    docLines (best 3 0 twoTexts) = ["aabb"] ∧ rustLen "aabb" > 3 ∧
    "aabb" ∉ DocCore.texts twoTexts := by
  refine ⟨?_, by decide, by decide⟩
  simp only [best, twoTexts, append, text, be]
  decide

/-- C5 amended: every line of the rendered output is indentation spaces
followed by a concatenation of whole Text fragments of the document — the
algorithm never splits a Text fragment — but a line may exceed the width
whenever that break-free material exceeds it, not only when a single
fragment does. -/
theorem C5_no_token_splitting (w : Int) (x : DocCore) (l : String)
    (h : l ∈ docLines (best w 0 x)) :
    ∃ (i : Int) (ss : List String),
      l = copy i " " ++ sjoin ss ∧ ∀ s ∈ ss, s ∈ DocCore.texts x := by
  have hfrag : ∀ s ∈ (best w 0 x).fragments, s ∈ DocCore.texts x := by
    intro s hs
    obtain ⟨p, hp, hsp⟩ := be_fragments w 0 [(0, x)] s hs
    simp only [List.mem_singleton] at hp
    subst hp
    exact hsp
  obtain ⟨⟨ss0, hhead, hss0⟩, htail⟩ := docLines_shape (best w 0 x)
  cases hd : docLines (best w 0 x) with
  | nil => exact absurd hd (docLines_ne_nil _)
  | cons l0 ls =>
    rw [hd] at h hhead htail
    simp only [List.head?] at hhead
    injection hhead with hl0
    rcases List.mem_cons.mp h with h1 | h2
    · refine ⟨0, ss0, ?_, fun s hs => hfrag s (hss0 s hs)⟩
      rw [h1, ← hl0]
      have hc : copy 0 " " = "" := rfl
      rw [hc, String.empty_append]
    · obtain ⟨i, ss, hshape, hmem⟩ := htail l (by simpa using h2)
      exact ⟨i, ss, hshape, fun s hs => hfrag s (hmem s hs)⟩

/-- Witness for C5_no_token_splitting on the line "aabb" at width 3. -/
theorem C5_no_token_splitting_witness :
    ("aabb" ∈ docLines (best 3 0 twoTexts)) ∧
    ∃ (i : Int) (ss : List String),
      "aabb" = copy i " " ++ sjoin ss ∧ ∀ s ∈ ss, s ∈ DocCore.texts twoTexts :=
  ⟨by simp only [best, twoTexts, append, text, be]; decide,
   C5_no_token_splitting 3 twoTexts "aabb"
     (by simp only [best, twoTexts, append, text, be]; decide)⟩

/-- C9 counterexample: dC9 is built only from group-wrapped sub-documents,
yet widening the page from 7 to 8 columns increases the number of line
breaks from 1 to 2: flattening the first group at width 8 raises the column
at which the second group is resolved, forcing both of its breaks. -/
theorem C9_counterexample :
    countNL (pretty 7 dC9) = 1 ∧ countNL (pretty 8 dC9) = 2 ∧
    ¬ countNL (pretty 8 dC9) ≤ countNL (pretty 7 dC9) := by
  refine ⟨?_, ?_, ?_⟩ <;>
    simp only [pretty, best, dC9, G1, G2, group, flatten, append, text, line, nil, be] <;>
    decide

/-- C9 amended: for a single group over a union-free document, increasing the
width never increases the number of line breaks in the output. -/
theorem C9_single_group_monotone (y : DocCore) (w1 w2 : Int)
    (hy : y.unionFree = true) (hw : w1 ≤ w2) :
    countNL (pretty w2 (group y)) ≤ countNL (pretty w1 (group y)) := by
  have hfl : allUnionFree [((0 : Int), flatten y)] = true := by
    simp [allUnionFree, flatten_unionFree]
  have hyl : allUnionFree [((0 : Int), y)] = true := by
    simp [allUnionFree, hy]
  have hkey : ∀ w : Int, pretty w (group y) =
      layout (if fits (w - 0) (be w 0 [(0, flatten y)]) then be w 0 [(0, flatten y)]
              else be w 0 [(0, y)]) := by
    intro w
    simp only [pretty, best, group]
    rw [be]
    simp only [better]
  have hF : ∀ w : Int, countNL (layout (be w 0 [((0 : Int), flatten y)])) =
      (flatten y).nlCount := by
    intro w
    rw [be_countNL w 0 _ hfl]
    simp [nlSum]
  have hB : ∀ w : Int, countNL (layout (be w 0 [((0 : Int), y)])) = y.nlCount := by
    intro w
    rw [be_countNL w 0 _ hyl]
    simp [nlSum]
  have hle : (flatten y).nlCount ≤ y.nlCount := nlCount_flatten_le y hy
  rw [hkey w1, hkey w2]
  by_cases h2 : fits (w2 - 0) (be w2 0 [((0 : Int), flatten y)])
  · rw [if_pos h2, hF]
    by_cases h1 : fits (w1 - 0) (be w1 0 [((0 : Int), flatten y)])
    · rw [if_pos h1, hF]
    · rw [if_neg h1, hB]
      exact hle
  · have hFsame : be w1 0 [((0 : Int), flatten y)] = be w2 0 [((0 : Int), flatten y)] :=
      be_indep w1 0 _ w2 0 hfl
    have h1 : ¬ fits (w1 - 0) (be w1 0 [((0 : Int), flatten y)]) = true := by
      intro hcon
      apply h2
      rw [← hFsame]
      exact fits_mono _ (w1 - 0) (w2 - 0) (by omega) hcon
    rw [if_neg h2, if_neg h1, hB, hB]

/-- Witness for C9_single_group_monotone on a concrete union-free group. -/
theorem C9_single_group_monotone_witness :
    (DocCore.unionFree (append (text "aaaa") (append line (text "b"))) = true ∧
      (3 : Int) ≤ 5) ∧
    countNL (pretty 5 (group (append (text "aaaa") (append line (text "b"))))) ≤
      countNL (pretty 3 (group (append (text "aaaa") (append line (text "b"))))) :=
  ⟨⟨by decide, by decide⟩,
   C9_single_group_monotone (append (text "aaaa") (append line (text "b"))) 3 5
     (by decide) (by decide)⟩
